import Mathlib

/-!
Verification of the working-copy file operation coordinator
(`workingCopyFileService.ts`): the move/copy/delete pipelines, their
event broadcasts and the dirty working-copy resolution.
-/

namespace WorkingCopyFileService

/-- Resources are URIs; we model a URI as a scheme together with its path
split into segments, so that parent/descendant relations respect path
segment boundaries. -/
structure URI where
  scheme : String
  path : List String
deriving DecidableEq, Repr

/-- Modelled from the spec: `isEqual` from `vs/base/common/resources` is not
under src/; per the spec it is exact path equality of resources. -/
def isEqual (a b : URI) : Bool := a == b

/-- Modelled from the spec: `isEqualOrParent` from `vs/base/common/resources`
is not under src/; per the spec it matches a resource whose path equals the
candidate or is a descendant of it, respecting path segment boundaries,
which on segment lists is exactly the prefix relation. -/
def isEqualOrParent (resource candidate : URI) : Bool :=
  resource.scheme == candidate.scheme && candidate.path.isPrefixOf resource.path

/-- The `FileOperation` enum from `vs/platform/files/common/files` (the three
members used by this service). -/
inductive FileOperation where
  | MOVE
  | COPY
  | DELETE
deriving DecidableEq, Repr

/-- A working copy as seen by this service: a resource, a dirty flag, and an
identity (`id`) standing for JavaScript object identity. -/
structure IWorkingCopy where
  id : Nat
  resource : URI
  dirty : Bool
deriving DecidableEq, Repr

/-- File metadata returned by the file service on move/copy. -/
abbrev IFileStatWithMetadata := Nat

/-- Errors raised by collaborators. -/
abbrev Err := String

/-- Modelled from the spec: the file-access delegate (`IFileService`) is not
under src/. `canHandle` says whether a scheme is handled by a hierarchical
file-access delegate; the three result fields give the outcome of the
delegate's move/copy/del call for the invocation under study. -/
structure IFileService where
  canHandle : String → Bool
  moveResult : Except Err IFileStatWithMetadata
  copyResult : Except Err IFileStatWithMetadata
  delResult : Except Err Unit

/-- Modelled from the spec: the working-copy collaborator's `revert` is not
under src/; `revertOutcome i` is the outcome of `revert({ soft: true })` on
the working copy with identity `i` (a successful soft revert clears the
dirty flag). -/
structure Env where
  fileService : IFileService
  revertOutcome : Nat → Except Err Unit

/-- Mutable state of one `WorkingCopyFileService` instance: the correlation
id counter and the registry of working copies. -/
structure ServiceState where
  correlationIds : Nat
  workingCopies : List IWorkingCopy

/-- Observable events of one invocation, in the order they are issued:
the three broadcasts, the soft-revert calls, and the disk-mutation delegate
call. The `stat` field of `didRun` is the file metadata carried by the
broadcast payload (`none` when the fired event object has no such field). -/
inductive TraceEvent where
  | willRun (correlationId : Nat) (operation : FileOperation)
      (source : Option URI) (target : URI)
  | revertCall (copyId : Nat)
  | fsCall (operation : FileOperation)
  | didFail (correlationId : Nat) (operation : FileOperation)
      (source : Option URI) (target : URI)
  | didRun (correlationId : Nat) (operation : FileOperation)
      (source : Option URI) (target : URI) (stat : Option IFileStatWithMetadata)
deriving DecidableEq, Repr

/-- Result of one invocation: the service state after it, the event trace,
and the value returned to the caller (or the error rethrown to it). -/
structure InvocationResult (α : Type) where
  state : ServiceState
  trace : List TraceEvent
  outcome : Except Err α

/-- The registry's `dirtyWorkingCopies` getter: all working copies whose
dirty flag is set. -/
def dirtyWorkingCopies (copies : List IWorkingCopy) : List IWorkingCopy :=
  copies.filter (fun c => c.dirty)

/-- Source `getDirtyWorkingCopies` (lines 171-182): filter the dirty working copies,
using equal-or-parent matching when the file service can handle the resource
and exact equality otherwise. -/
def getDirtyWorkingCopies (fs : IFileService) (copies : List IWorkingCopy)
    (resource : URI) : List IWorkingCopy :=
  (dirtyWorkingCopies copies).filter (fun dirty =>
    if fs.canHandle resource.scheme then
      isEqualOrParent dirty.resource resource
    else
      isEqual dirty.resource resource)

/-- Whether the soft revert on copy `i` succeeds in environment `env`. -/
def revertOk (env : Env) (i : Nat) : Bool :=
  match env.revertOutcome i with
  | .ok _ => true
  | .error _ => false

/-- The rejection `Promise.all` over the soft reverts of `selected` settles
with: the first revert error in list order, if any. -/
def firstRevertError (env : Env) (selected : List IWorkingCopy) : Option Err :=
  selected.findSome? (fun c =>
    match env.revertOutcome c.id with
    | .ok _ => none
    | .error e => some e)

/-- Effect of issuing `revert({ soft: true })` on every copy in `selected`:
each selected copy whose revert succeeds has its dirty flag cleared. -/
def applyReverts (env : Env) (selected : List IWorkingCopy)
    (copies : List IWorkingCopy) : List IWorkingCopy :=
  copies.map (fun c =>
    if selected.any (fun d => d.id == c.id) && revertOk env c.id then
      { c with dirty := false }
    else
      c)

/-- The dirty working copies resolved by `moveOrCopy` (line 123): for move,
the concatenation of the copies matching the source and the copies matching
the target; for copy, the copies matching the target only. -/
def resolvedDirty (fs : IFileService) (copies : List IWorkingCopy)
    (source target : URI) (move : Bool) : List IWorkingCopy :=
  if move then
    getDirtyWorkingCopies fs copies source ++ getDirtyWorkingCopies fs copies target
  else
    getDirtyWorkingCopies fs copies target

/-- Source `moveOrCopy` (lines 114-144): allocate a correlation id, fire the
will-run broadcast, soft-revert the resolved dirty working copies, call the
file service's move or copy, and fire did-fail (rethrowing) or did-run
(returning the resulting metadata). The did-run broadcast payload is
`{ correlationId, operation, target, source }`, with no metadata field. -/
def moveOrCopy (env : Env) (st : ServiceState) (source target : URI)
    (move : Bool) : InvocationResult IFileStatWithMetadata :=
  let correlationId := st.correlationIds
  let operation := if move then FileOperation.MOVE else FileOperation.COPY
  let willEvt := TraceEvent.willRun correlationId operation (some source) target
  let dirtyList := resolvedDirty env.fileService st.workingCopies source target move
  let revertEvts := dirtyList.map (fun c => TraceEvent.revertCall c.id)
  let st2 : ServiceState :=
    { correlationIds := st.correlationIds + 1,
      workingCopies := applyReverts env dirtyList st.workingCopies }
  match firstRevertError env dirtyList with
  | some e =>
      { state := st2, trace := willEvt :: revertEvts, outcome := .error e }
  | none =>
      match (if move then env.fileService.moveResult else env.fileService.copyResult) with
      | .error e =>
          { state := st2,
            trace := willEvt :: revertEvts ++
              [TraceEvent.fsCall operation,
               TraceEvent.didFail correlationId operation (some source) target],
            outcome := .error e }
      | .ok stat =>
          { state := st2,
            trace := willEvt :: revertEvts ++
              [TraceEvent.fsCall operation,
               TraceEvent.didRun correlationId operation (some source) target none],
            outcome := .ok stat }

/-- Source `move` (lines 106-108). -/
def move (env : Env) (st : ServiceState) (source target : URI) :
    InvocationResult IFileStatWithMetadata :=
  moveOrCopy env st source target true

/-- Source `copy` (lines 110-112). -/
def copy (env : Env) (st : ServiceState) (source target : URI) :
    InvocationResult IFileStatWithMetadata :=
  moveOrCopy env st source target false

/-- Source `delete` (lines 146-169): allocate a correlation id, fire the will-run
broadcast, soft-revert the dirty working copies matching the resource, call
the file service's del, and fire did-fail (rethrowing) or did-run. -/
def delete (env : Env) (st : ServiceState) (resource : URI) :
    InvocationResult Unit :=
  let correlationId := st.correlationIds
  let willEvt := TraceEvent.willRun correlationId FileOperation.DELETE none resource
  let dirtyList := getDirtyWorkingCopies env.fileService st.workingCopies resource
  let revertEvts := dirtyList.map (fun c => TraceEvent.revertCall c.id)
  let st2 : ServiceState :=
    { correlationIds := st.correlationIds + 1,
      workingCopies := applyReverts env dirtyList st.workingCopies }
  match firstRevertError env dirtyList with
  | some e =>
      { state := st2, trace := willEvt :: revertEvts, outcome := .error e }
  | none =>
      match env.fileService.delResult with
      | .error e =>
          { state := st2,
            trace := willEvt :: revertEvts ++
              [TraceEvent.fsCall FileOperation.DELETE,
               TraceEvent.didFail correlationId FileOperation.DELETE none resource],
            outcome := .error e }
      | .ok _ =>
          { state := st2,
            trace := willEvt :: revertEvts ++
              [TraceEvent.fsCall FileOperation.DELETE,
               TraceEvent.didRun correlationId FileOperation.DELETE none resource none],
            outcome := .ok () }

/-- Recognizer for will-run broadcast events. -/
def isWillRun : TraceEvent → Bool
  | .willRun .. => true
  | _ => false

/-- Recognizer for soft-revert calls. -/
def isRevertCall : TraceEvent → Bool
  | .revertCall _ => true
  | _ => false

/-- Recognizer for disk-mutation delegate calls. -/
def isFsCall : TraceEvent → Bool
  | .fsCall _ => true
  | _ => false

/-- Recognizer for did-fail broadcast events. -/
def isDidFail : TraceEvent → Bool
  | .didFail .. => true
  | _ => false

/-- Recognizer for did-run broadcast events. -/
def isDidRun : TraceEvent → Bool
  | .didRun .. => true
  | _ => false

/-- Every event satisfying `p` occurs strictly before every event
satisfying `q` in the trace `t`. -/
def allBefore (t : List TraceEvent) (p q : TraceEvent → Bool) : Prop :=
  ∀ i j : Fin t.length, p (t.get i) = true → q (t.get j) = true → (i : Nat) < (j : Nat)

/-- If no event of `ys` satisfies `p` and no event of `xs` satisfies `q`,
then in `xs ++ ys` every `p`-event precedes every `q`-event. -/
theorem allBefore_append {xs ys : List TraceEvent} {p q : TraceEvent → Bool}
    (hp : ∀ e ∈ ys, p e = false) (hq : ∀ e ∈ xs, q e = false) :
    allBefore (xs ++ ys) p q := by
  intro i j hpi hqj
  rw [List.get_eq_getElem] at hpi hqj
  rcases Nat.lt_or_ge (i : Nat) xs.length with hi | hi
  · rcases Nat.lt_or_ge (j : Nat) xs.length with hj | hj
    · exfalso
      rw [List.getElem_append_left hj] at hqj
      have := hq _ (List.getElem_mem hj)
      simp [this] at hqj
    · exact Nat.lt_of_lt_of_le hi hj
  · exfalso
    have hilt : (i : Nat) < xs.length + ys.length := by
      have := i.isLt
      simpa [List.length_append] using this
    have hbound : (i : Nat) - xs.length < ys.length := by omega
    rw [List.getElem_append_right hi] at hpi
    have := hp _ (List.getElem_mem hbound)
    simp [this] at hpi

/-- Events of the revert block are revert calls and nothing else. -/
theorem mem_revertEvts {l : List IWorkingCopy} {e : TraceEvent}
    (h : e ∈ l.map fun c => TraceEvent.revertCall c.id) :
    isRevertCall e = true ∧ isWillRun e = false ∧ isFsCall e = false ∧
      isDidFail e = false ∧ isDidRun e = false := by
  rcases List.mem_map.mp h with ⟨c, _, rfl⟩
  exact ⟨rfl, rfl, rfl, rfl, rfl⟩

/-- The ordering facts hold of any trace of the shape produced by the
pipelines: a will-run event, then the revert calls, then a tail free of
will-run and revert events. -/
theorem allBefore_of_shape {w : TraceEvent} {revs rest : List TraceEvent}
    (hw : isRevertCall w = false ∧ isFsCall w = false)
    (hrevs : ∀ e ∈ revs, isWillRun e = false ∧ isFsCall e = false)
    (hrest : ∀ e ∈ rest, isWillRun e = false ∧ isRevertCall e = false) :
    allBefore (w :: revs ++ rest) isWillRun isRevertCall ∧
    allBefore (w :: revs ++ rest) isRevertCall isFsCall ∧
    allBefore (w :: revs ++ rest) isWillRun isFsCall := by
  have hsplit₁ : w :: revs ++ rest = [w] ++ (revs ++ rest) := by simp
  have hsplit₂ : w :: revs ++ rest = (w :: revs) ++ rest := by simp
  refine ⟨?_, ?_, ?_⟩
  · rw [hsplit₁]
    apply allBefore_append
    · intro e he
      rcases List.mem_append.mp he with h | h
      · exact (hrevs e h).1
      · exact (hrest e h).1
    · intro e he
      rw [List.mem_singleton.mp he]
      exact hw.1
  · rw [hsplit₂]
    apply allBefore_append
    · intro e he
      exact (hrest e he).2
    · intro e he
      rcases List.mem_cons.mp he with h | h
      · rw [h]; exact hw.2
      · exact (hrevs e h).2
  · rw [hsplit₂]
    apply allBefore_append
    · intro e he
      exact (hrest e he).1
    · intro e he
      rcases List.mem_cons.mp he with h | h
      · rw [h]; exact hw.2
      · exact (hrevs e h).2

/-- The trace of `moveOrCopy` is the will-run event, the revert calls of the
resolved dirty copies, and a tail containing no will-run and no revert
event. -/
theorem trace_shape_moveOrCopy (env : Env) (st : ServiceState)
    (source target : URI) (m : Bool) :
    ∃ rest : List TraceEvent,
      (moveOrCopy env st source target m).trace =
        TraceEvent.willRun st.correlationIds
            (if m then FileOperation.MOVE else FileOperation.COPY) (some source) target ::
          (resolvedDirty env.fileService st.workingCopies source target m).map
            (fun c => TraceEvent.revertCall c.id) ++ rest ∧
      ∀ e ∈ rest, isWillRun e = false ∧ isRevertCall e = false := by
  unfold moveOrCopy
  rcases h : firstRevertError env (resolvedDirty env.fileService st.workingCopies source target m) with _ | e
  · rcases h₂ : (if m then env.fileService.moveResult else env.fileService.copyResult) with e | stat
    · refine ⟨[TraceEvent.fsCall (if m then FileOperation.MOVE else FileOperation.COPY),
        TraceEvent.didFail st.correlationIds
          (if m then FileOperation.MOVE else FileOperation.COPY) (some source) target],
        by simp [h, h₂], ?_⟩
      intro e he
      rcases List.mem_cons.mp he with rfl | he
      · exact ⟨rfl, rfl⟩
      · rw [List.mem_singleton.mp he]
        exact ⟨rfl, rfl⟩
    · refine ⟨[TraceEvent.fsCall (if m then FileOperation.MOVE else FileOperation.COPY),
        TraceEvent.didRun st.correlationIds
          (if m then FileOperation.MOVE else FileOperation.COPY) (some source) target none],
        by simp [h, h₂], ?_⟩
      intro e he
      rcases List.mem_cons.mp he with rfl | he
      · exact ⟨rfl, rfl⟩
      · rw [List.mem_singleton.mp he]
        exact ⟨rfl, rfl⟩
  · exact ⟨[], by simp [h], by simp⟩

/-- The trace of `delete` is the will-run event, the revert calls of the
matching dirty copies, and a tail containing no will-run and no revert
event. -/
theorem trace_shape_delete (env : Env) (st : ServiceState) (resource : URI) :
    ∃ rest : List TraceEvent,
      (delete env st resource).trace =
        TraceEvent.willRun st.correlationIds FileOperation.DELETE none resource ::
          (getDirtyWorkingCopies env.fileService st.workingCopies resource).map
            (fun c => TraceEvent.revertCall c.id) ++ rest ∧
      ∀ e ∈ rest, isWillRun e = false ∧ isRevertCall e = false := by
  unfold delete
  rcases h : firstRevertError env (getDirtyWorkingCopies env.fileService st.workingCopies resource) with _ | e
  · rcases h₂ : env.fileService.delResult with e | u
    · refine ⟨[TraceEvent.fsCall FileOperation.DELETE,
        TraceEvent.didFail st.correlationIds FileOperation.DELETE none resource],
        by simp [h, h₂], ?_⟩
      intro e he
      rcases List.mem_cons.mp he with rfl | he
      · exact ⟨rfl, rfl⟩
      · rw [List.mem_singleton.mp he]
        exact ⟨rfl, rfl⟩
    · refine ⟨[TraceEvent.fsCall FileOperation.DELETE,
        TraceEvent.didRun st.correlationIds FileOperation.DELETE none resource none],
        by simp [h, h₂], ?_⟩
      intro e he
      rcases List.mem_cons.mp he with rfl | he
      · exact ⟨rfl, rfl⟩
      · rw [List.mem_singleton.mp he]
        exact ⟨rfl, rfl⟩
  · exact ⟨[], by simp [h], by simp⟩

/-- The identity of the copy a revert-call event addresses, if any. -/
def revertId? : TraceEvent → Option Nat
  | .revertCall i => some i
  | _ => none

/-- The identities of the soft-reverted copies, in call order. -/
def revertCalls (t : List TraceEvent) : List Nat :=
  t.filterMap revertId?

/-- Membership in the resolver's output, unfolded. -/
theorem mem_getDirtyWorkingCopies {fs : IFileService} {copies : List IWorkingCopy}
    {resource : URI} {c : IWorkingCopy} :
    c ∈ getDirtyWorkingCopies fs copies resource ↔
      c ∈ copies ∧ c.dirty = true ∧
        (if fs.canHandle resource.scheme then isEqualOrParent c.resource resource
         else isEqual c.resource resource) = true := by
  unfold getDirtyWorkingCopies dirtyWorkingCopies
  rw [List.mem_filter, List.mem_filter]
  tauto

/-- If no revert fails on the selected copies, `firstRevertError` is none. -/
theorem firstRevertError_none_of_all_ok {env : Env} {L : List IWorkingCopy}
    (henv : ∀ i, env.revertOutcome i = Except.ok ()) :
    firstRevertError env L = none := by
  unfold firstRevertError
  rw [List.findSome?_eq_none_iff]
  intro c _
  rw [henv c.id]

/-- A none result of `firstRevertError` means every selected revert
succeeded. -/
theorem revertOk_of_firstRevertError_none {env : Env} {L : List IWorkingCopy}
    (h : firstRevertError env L = none) :
    ∀ c ∈ L, revertOk env c.id = true := by
  intro c hcL
  have h2 := List.findSome?_eq_none_iff.mp h c hcL
  unfold revertOk
  rcases h3 : env.revertOutcome c.id with e | u
  · rw [h3] at h2
    simp at h2
  · rfl

/-- Result of `moveOrCopy` when the reverts succeed and the delegate
succeeds. -/
theorem moveOrCopy_eq_of_ok {env : Env} {st : ServiceState}
    {source target : URI} {m : Bool} {stat : IFileStatWithMetadata}
    (hrev : firstRevertError env (resolvedDirty env.fileService st.workingCopies source target m) = none)
    (hok : (if m then env.fileService.moveResult else env.fileService.copyResult) = Except.ok stat) :
    moveOrCopy env st source target m =
      { state :=
          { correlationIds := st.correlationIds + 1,
            workingCopies := applyReverts env
              (resolvedDirty env.fileService st.workingCopies source target m) st.workingCopies },
        trace := TraceEvent.willRun st.correlationIds
            (if m then FileOperation.MOVE else FileOperation.COPY) (some source) target ::
          (resolvedDirty env.fileService st.workingCopies source target m).map
            (fun c => TraceEvent.revertCall c.id) ++
          [TraceEvent.fsCall (if m then FileOperation.MOVE else FileOperation.COPY),
           TraceEvent.didRun st.correlationIds
             (if m then FileOperation.MOVE else FileOperation.COPY) (some source) target none],
        outcome := Except.ok stat } := by
  unfold moveOrCopy
  simp [hrev, hok]

/-- Result of `moveOrCopy` when the reverts succeed and the delegate
throws. -/
theorem moveOrCopy_eq_of_error {env : Env} {st : ServiceState}
    {source target : URI} {m : Bool} {e : Err}
    (hrev : firstRevertError env (resolvedDirty env.fileService st.workingCopies source target m) = none)
    (herr : (if m then env.fileService.moveResult else env.fileService.copyResult) = Except.error e) :
    moveOrCopy env st source target m =
      { state :=
          { correlationIds := st.correlationIds + 1,
            workingCopies := applyReverts env
              (resolvedDirty env.fileService st.workingCopies source target m) st.workingCopies },
        trace := TraceEvent.willRun st.correlationIds
            (if m then FileOperation.MOVE else FileOperation.COPY) (some source) target ::
          (resolvedDirty env.fileService st.workingCopies source target m).map
            (fun c => TraceEvent.revertCall c.id) ++
          [TraceEvent.fsCall (if m then FileOperation.MOVE else FileOperation.COPY),
           TraceEvent.didFail st.correlationIds
             (if m then FileOperation.MOVE else FileOperation.COPY) (some source) target],
        outcome := Except.error e } := by
  unfold moveOrCopy
  simp [hrev, herr]

/-- Result of `moveOrCopy` when some revert fails. -/
theorem moveOrCopy_eq_of_revertError {env : Env} {st : ServiceState}
    {source target : URI} {m : Bool} {e : Err}
    (hrev : firstRevertError env (resolvedDirty env.fileService st.workingCopies source target m) = some e) :
    moveOrCopy env st source target m =
      { state :=
          { correlationIds := st.correlationIds + 1,
            workingCopies := applyReverts env
              (resolvedDirty env.fileService st.workingCopies source target m) st.workingCopies },
        trace := TraceEvent.willRun st.correlationIds
            (if m then FileOperation.MOVE else FileOperation.COPY) (some source) target ::
          (resolvedDirty env.fileService st.workingCopies source target m).map
            (fun c => TraceEvent.revertCall c.id),
        outcome := Except.error e } := by
  unfold moveOrCopy
  simp [hrev]

/-- Result of `delete` when the reverts succeed and the delegate succeeds. -/
theorem delete_eq_of_ok {env : Env} {st : ServiceState} {resource : URI}
    (hrev : firstRevertError env (getDirtyWorkingCopies env.fileService st.workingCopies resource) = none)
    (hok : env.fileService.delResult = Except.ok ()) :
    delete env st resource =
      { state :=
          { correlationIds := st.correlationIds + 1,
            workingCopies := applyReverts env
              (getDirtyWorkingCopies env.fileService st.workingCopies resource) st.workingCopies },
        trace := TraceEvent.willRun st.correlationIds FileOperation.DELETE none resource ::
          (getDirtyWorkingCopies env.fileService st.workingCopies resource).map
            (fun c => TraceEvent.revertCall c.id) ++
          [TraceEvent.fsCall FileOperation.DELETE,
           TraceEvent.didRun st.correlationIds FileOperation.DELETE none resource none],
        outcome := Except.ok () } := by
  unfold delete
  simp [hrev, hok]

/-- Result of `delete` when the reverts succeed and the delegate throws. -/
theorem delete_eq_of_error {env : Env} {st : ServiceState} {resource : URI} {e : Err}
    (hrev : firstRevertError env (getDirtyWorkingCopies env.fileService st.workingCopies resource) = none)
    (herr : env.fileService.delResult = Except.error e) :
    delete env st resource =
      { state :=
          { correlationIds := st.correlationIds + 1,
            workingCopies := applyReverts env
              (getDirtyWorkingCopies env.fileService st.workingCopies resource) st.workingCopies },
        trace := TraceEvent.willRun st.correlationIds FileOperation.DELETE none resource ::
          (getDirtyWorkingCopies env.fileService st.workingCopies resource).map
            (fun c => TraceEvent.revertCall c.id) ++
          [TraceEvent.fsCall FileOperation.DELETE,
           TraceEvent.didFail st.correlationIds FileOperation.DELETE none resource],
        outcome := Except.error e } := by
  unfold delete
  simp [hrev, herr]

/-- Result of `delete` when some revert fails. -/
theorem delete_eq_of_revertError {env : Env} {st : ServiceState} {resource : URI} {e : Err}
    (hrev : firstRevertError env (getDirtyWorkingCopies env.fileService st.workingCopies resource) = some e) :
    delete env st resource =
      { state :=
          { correlationIds := st.correlationIds + 1,
            workingCopies := applyReverts env
              (getDirtyWorkingCopies env.fileService st.workingCopies resource) st.workingCopies },
        trace := TraceEvent.willRun st.correlationIds FileOperation.DELETE none resource ::
          (getDirtyWorkingCopies env.fileService st.workingCopies resource).map
            (fun c => TraceEvent.revertCall c.id),
        outcome := Except.error e } := by
  unfold delete
  simp [hrev]

/-- C3: in every move, copy, or delete invocation the will-run broadcast
precedes every soft revert, every soft revert of the resolved dirty copies
precedes the disk-mutation delegate call, and the will-run broadcast
precedes the delegate call. -/
theorem will_run_then_reverts_then_fs_call (env : Env) (st : ServiceState)
    (source target resource : URI) (m : Bool) :
    (allBefore (moveOrCopy env st source target m).trace isWillRun isRevertCall ∧
     allBefore (moveOrCopy env st source target m).trace isRevertCall isFsCall ∧
     allBefore (moveOrCopy env st source target m).trace isWillRun isFsCall) ∧
    (allBefore (delete env st resource).trace isWillRun isRevertCall ∧
     allBefore (delete env st resource).trace isRevertCall isFsCall ∧
     allBefore (delete env st resource).trace isWillRun isFsCall) := by
  constructor
  · rcases trace_shape_moveOrCopy env st source target m with ⟨rest, heq, hrest⟩
    rw [heq]
    exact allBefore_of_shape ⟨rfl, rfl⟩
      (fun e he => ⟨(mem_revertEvts he).2.1, (mem_revertEvts he).2.2.1⟩) hrest
  · rcases trace_shape_delete env st resource with ⟨rest, heq, hrest⟩
    rw [heq]
    exact allBefore_of_shape ⟨rfl, rfl⟩
      (fun e he => ⟨(mem_revertEvts he).2.1, (mem_revertEvts he).2.2.1⟩) hrest

/-- Extracting revert identities from a revert block gives the copies'
identities. -/
theorem revertCalls_revertEvts (l : List IWorkingCopy) :
    revertCalls (l.map fun c => TraceEvent.revertCall c.id) = l.map fun c => c.id := by
  unfold revertCalls
  rw [List.filterMap_map]
  induction l with
  | nil => rfl
  | cons a l ih =>
    rw [List.map_cons, List.filterMap_cons]
    simp only [Function.comp]
    rw [ih]
    rfl

/-- A block without revert events contributes no revert identities. -/
theorem revertCalls_eq_nil {rest : List TraceEvent}
    (h : ∀ e ∈ rest, isRevertCall e = false) : revertCalls rest = [] := by
  unfold revertCalls
  rw [List.filterMap_eq_nil_iff]
  intro e he
  have h2 := h e he
  cases e <;> simp [isRevertCall, revertId?] at h2 ⊢

/-- The reverts of one `moveOrCopy` invocation are exactly the resolved
dirty copies, in resolution order. -/
theorem revertCalls_moveOrCopy (env : Env) (st : ServiceState)
    (source target : URI) (m : Bool) :
    revertCalls (moveOrCopy env st source target m).trace =
      (resolvedDirty env.fileService st.workingCopies source target m).map
        (fun c => c.id) := by
  rcases trace_shape_moveOrCopy env st source target m with ⟨rest, heq, hrest⟩
  rw [heq]
  have hcons : (TraceEvent.willRun st.correlationIds
      (if m then FileOperation.MOVE else FileOperation.COPY) (some source) target ::
        (resolvedDirty env.fileService st.workingCopies source target m).map
          (fun c => TraceEvent.revertCall c.id) ++ rest) =
      [TraceEvent.willRun st.correlationIds
        (if m then FileOperation.MOVE else FileOperation.COPY) (some source) target] ++
        ((resolvedDirty env.fileService st.workingCopies source target m).map
          (fun c => TraceEvent.revertCall c.id) ++ rest) := by simp
  rw [hcons]
  unfold revertCalls at *
  rw [List.filterMap_append, List.filterMap_append]
  have h1 : List.filterMap revertId? [TraceEvent.willRun st.correlationIds
      (if m then FileOperation.MOVE else FileOperation.COPY) (some source) target] = [] := rfl
  have h2 := revertCalls_revertEvts (resolvedDirty env.fileService st.workingCopies source target m)
  unfold revertCalls at h2
  have h3 := revertCalls_eq_nil (fun e he => (hrest e he).2)
  unfold revertCalls at h3
  rw [h1, h2, h3]
  simp

/-- The reverts of one `delete` invocation are exactly the matching dirty
copies, in resolution order. -/
theorem revertCalls_delete (env : Env) (st : ServiceState) (resource : URI) :
    revertCalls (delete env st resource).trace =
      (getDirtyWorkingCopies env.fileService st.workingCopies resource).map
        (fun c => c.id) := by
  rcases trace_shape_delete env st resource with ⟨rest, heq, hrest⟩
  rw [heq]
  have hcons : (TraceEvent.willRun st.correlationIds FileOperation.DELETE none resource ::
        (getDirtyWorkingCopies env.fileService st.workingCopies resource).map
          (fun c => TraceEvent.revertCall c.id) ++ rest) =
      [TraceEvent.willRun st.correlationIds FileOperation.DELETE none resource] ++
        ((getDirtyWorkingCopies env.fileService st.workingCopies resource).map
          (fun c => TraceEvent.revertCall c.id) ++ rest) := by simp
  rw [hcons]
  unfold revertCalls at *
  rw [List.filterMap_append, List.filterMap_append]
  have h1 : List.filterMap revertId?
      [TraceEvent.willRun st.correlationIds FileOperation.DELETE none resource] = [] := rfl
  have h2 := revertCalls_revertEvts (getDirtyWorkingCopies env.fileService st.workingCopies resource)
  unfold revertCalls at h2
  have h3 := revertCalls_eq_nil (fun e he => (hrest e he).2)
  unfold revertCalls at h3
  rw [h1, h2, h3]
  simp

/-- The state after `moveOrCopy`, whatever the delegate outcome. -/
theorem moveOrCopy_state (env : Env) (st : ServiceState) (source target : URI)
    (m : Bool) :
    (moveOrCopy env st source target m).state =
      { correlationIds := st.correlationIds + 1,
        workingCopies := applyReverts env
          (resolvedDirty env.fileService st.workingCopies source target m)
          st.workingCopies } := by
  unfold moveOrCopy
  rcases h : firstRevertError env (resolvedDirty env.fileService st.workingCopies source target m) with _ | e
  · rcases h₂ : (if m then env.fileService.moveResult else env.fileService.copyResult) with e | s <;>
      simp [h, h₂]
  · simp [h]

/-- The state after `delete`, whatever the delegate outcome. -/
theorem delete_state (env : Env) (st : ServiceState) (resource : URI) :
    (delete env st resource).state =
      { correlationIds := st.correlationIds + 1,
        workingCopies := applyReverts env
          (getDirtyWorkingCopies env.fileService st.workingCopies resource)
          st.workingCopies } := by
  unfold delete
  rcases h : firstRevertError env (getDirtyWorkingCopies env.fileService st.workingCopies resource) with _ | e
  · rcases h₂ : env.fileService.delResult with e | u <;> simp [h, h₂]
  · simp [h]

/-- Working copies with the same identity in the registry are the same
copy, when identities are distinct. -/
theorem eq_of_id_eq {copies : List IWorkingCopy}
    (hids : (copies.map fun c => c.id).Nodup)
    {c d : IWorkingCopy} (hc : c ∈ copies) (hd : d ∈ copies)
    (h : d.id = c.id) : d = c :=
  List.inj_on_of_nodup_map hids hd hc h

/-- The resolver only returns registry members. -/
theorem mem_of_mem_getDirty {fs : IFileService} {copies : List IWorkingCopy}
    {resource : URI} {c : IWorkingCopy}
    (h : c ∈ getDirtyWorkingCopies fs copies resource) : c ∈ copies :=
  (mem_getDirtyWorkingCopies.mp h).1

/-- A selected copy whose revert succeeds appears with its dirty flag
cleared after the reverts. -/
theorem applyReverts_mem_reverted {env : Env} {L copies : List IWorkingCopy}
    {c : IWorkingCopy} (hc : c ∈ copies) (hsel : c ∈ L)
    (hok : revertOk env c.id = true) :
    { c with dirty := false } ∈ applyReverts env L copies := by
  unfold applyReverts
  refine List.mem_map.mpr ⟨c, hc, ?_⟩
  have hany : (L.any fun d => d.id == c.id) = true :=
    List.any_eq_true.mpr ⟨c, hsel, by simp⟩
  simp [hany, hok]

/-- A copy whose identity is selected by no revert is unchanged by the
reverts. -/
theorem applyReverts_mem_untouched {env : Env} {L copies : List IWorkingCopy}
    {c : IWorkingCopy} (hc : c ∈ copies)
    (hnot : (L.any fun d => d.id == c.id) = false) :
    c ∈ applyReverts env L copies := by
  unfold applyReverts
  refine List.mem_map.mpr ⟨c, hc, ?_⟩
  simp [hnot]

/-- With distinct identities, a registry copy outside a sub-collection of
the registry shares its identity with none of its members. -/
theorem any_id_eq_false {copies L : List IWorkingCopy} {c : IWorkingCopy}
    (hids : (copies.map fun c => c.id).Nodup) (hc : c ∈ copies)
    (hsub : ∀ d ∈ L, d ∈ copies) (hnot : c ∉ L) :
    (L.any fun d => d.id == c.id) = false := by
  rw [List.any_eq_false]
  intro d hd hbeq
  have hdc : d = c := eq_of_id_eq hids hc (hsub d hd) (by simpa using hbeq)
  exact hnot (hdc ▸ hd)

/-- C2: in a move, the soft-reverted dirty working copies are exactly those
matching the source followed by those matching the target; in a copy,
exactly those matching the target, and a dirty copy matching only the
source is neither reverted nor modified. -/
theorem move_reverts_both_copy_reverts_target_only (env : Env)
    (st : ServiceState) (source target : URI) :
    revertCalls (moveOrCopy env st source target true).trace =
      (getDirtyWorkingCopies env.fileService st.workingCopies source ++
        getDirtyWorkingCopies env.fileService st.workingCopies target).map
        (fun c => c.id) ∧
    revertCalls (moveOrCopy env st source target false).trace =
      (getDirtyWorkingCopies env.fileService st.workingCopies target).map
        (fun c => c.id) ∧
    ∀ c ∈ st.workingCopies,
      (st.workingCopies.map fun c => c.id).Nodup →
      c ∈ getDirtyWorkingCopies env.fileService st.workingCopies source →
      c ∉ getDirtyWorkingCopies env.fileService st.workingCopies target →
      c.id ∉ revertCalls (moveOrCopy env st source target false).trace ∧
        c ∈ (moveOrCopy env st source target false).state.workingCopies := by
  refine ⟨?_, ?_, ?_⟩
  · rw [revertCalls_moveOrCopy]
    rfl
  · rw [revertCalls_moveOrCopy]
    rfl
  · intro c hc hids _ hnotTgt
    have hres : resolvedDirty env.fileService st.workingCopies source target false =
        getDirtyWorkingCopies env.fileService st.workingCopies target := rfl
    constructor
    · rw [revertCalls_moveOrCopy, hres]
      intro hmem
      rcases List.mem_map.mp hmem with ⟨d, hd, hdc⟩
      exact hnotTgt (eq_of_id_eq hids hc (mem_of_mem_getDirty hd) hdc ▸ hd)
    · rw [moveOrCopy_state]
      refine applyReverts_mem_untouched hc ?_
      rw [hres]
      exact any_id_eq_false hids hc (fun d hd => mem_of_mem_getDirty hd) hnotTgt

/-- C10: in a move in which some dirty working copy matches both the source
and the target, that copy's soft revert is called twice, the source- and
target-matching lists being concatenated without deduplication. -/
theorem move_reverts_twice_on_overlap (env : Env) (st : ServiceState)
    (source target : URI) (c : IWorkingCopy)
    (hids : (st.workingCopies.map fun c => c.id).Nodup)
    (hsrc : c ∈ getDirtyWorkingCopies env.fileService st.workingCopies source)
    (htgt : c ∈ getDirtyWorkingCopies env.fileService st.workingCopies target) :
    (revertCalls (moveOrCopy env st source target true).trace).count c.id = 2 := by
  have hone : ∀ resource : URI,
      c ∈ getDirtyWorkingCopies env.fileService st.workingCopies resource →
      ((getDirtyWorkingCopies env.fileService st.workingCopies resource).map
        fun c => c.id).count c.id = 1 := by
    intro resource hmem
    have hsub : (getDirtyWorkingCopies env.fileService st.workingCopies resource).Sublist
        st.workingCopies := by
      unfold getDirtyWorkingCopies dirtyWorkingCopies
      exact (List.filter_sublist _).trans (List.filter_sublist _)
    have hnodup : ((getDirtyWorkingCopies env.fileService st.workingCopies resource).map
        fun c => c.id).Nodup :=
      List.Nodup.sublist (hsub.map _) hids
    exact List.count_eq_one_of_mem hnodup (List.mem_map_of_mem _ hmem)
  rw [revertCalls_moveOrCopy]
  have hres : resolvedDirty env.fileService st.workingCopies source target true =
      getDirtyWorkingCopies env.fileService st.workingCopies source ++
        getDirtyWorkingCopies env.fileService st.workingCopies target := rfl
  rw [hres, List.map_append, List.count_append, hone source hsrc, hone target htgt]

/-- A list is a prefix of another exactly when the latter extends it. -/
theorem isPrefixOf_iff_exists_append (l₁ l₂ : List String) :
    l₁.isPrefixOf l₂ = true ↔ ∃ t, l₂ = l₁ ++ t := by
  induction l₁ generalizing l₂ with
  | nil => simp [List.isPrefixOf]
  | cons a l ih =>
    cases l₂ with
    | nil => simp [List.isPrefixOf]
    | cons b l₂ =>
      rw [List.isPrefixOf, Bool.and_eq_true, beq_iff_eq, ih]
      constructor
      · rintro ⟨rfl, t, rfl⟩
        exact ⟨t, rfl⟩
      · rintro ⟨t, h⟩
        injection h with h1 h2
        exact ⟨h1.symm, t, h2⟩

/-- Predicate `isEqual` decides equality of resources. -/
theorem isEqual_iff {a b : URI} : isEqual a b = true ↔ a = b := by
  unfold isEqual
  exact beq_iff_eq

/-- Predicate `isEqualOrParent` decides the equal-or-descendant relation: the resource
equals the candidate, or shares its scheme and extends its path by at least
one segment. -/
theorem isEqualOrParent_iff {a b : URI} :
    isEqualOrParent a b = true ↔
      a = b ∨ (a.scheme = b.scheme ∧ ∃ t, t ≠ [] ∧ a.path = b.path ++ t) := by
  unfold isEqualOrParent
  rw [Bool.and_eq_true, beq_iff_eq, isPrefixOf_iff_exists_append]
  constructor
  · rintro ⟨hs, t, hp⟩
    cases t with
    | nil =>
      left
      rcases a with ⟨as, ap⟩
      rcases b with ⟨bs, bp⟩
      simp only [List.append_nil] at hp
      simp_all
    | cons x ts =>
      right
      exact ⟨hs, x :: ts, by simp, hp⟩
  · rintro (rfl | ⟨hs, t, _, hp⟩)
    · exact ⟨rfl, [], by simp⟩
    · exact ⟨hs, t, hp⟩

/-- C6: for a target whose scheme the file service handles, the resolver
selects exactly the dirty working copies whose path equals the target or is
a path-segment-boundary descendant of it; for any other scheme, exactly the
dirty working copies whose path equals the target. -/
theorem resolver_hierarchical_vs_flat (fs : IFileService)
    (copies : List IWorkingCopy) (resource : URI) (c : IWorkingCopy) :
    c ∈ getDirtyWorkingCopies fs copies resource ↔
      c ∈ copies ∧ c.dirty = true ∧
        (if fs.canHandle resource.scheme then
          c.resource = resource ∨
            (c.resource.scheme = resource.scheme ∧
              ∃ t, t ≠ [] ∧ c.resource.path = resource.path ++ t)
         else c.resource = resource) := by
  rw [mem_getDirtyWorkingCopies]
  cases h : fs.canHandle resource.scheme
  · simp [h, isEqual_iff]
  · simp [h, isEqualOrParent_iff]

/-- A file service for a scheme with flat (non-hierarchical) addressing
whose delegate calls succeed. -/
def flatFileService : IFileService :=
  { canHandle := fun _ => false,
    moveResult := Except.ok 0,
    copyResult := Except.ok 0,
    delResult := Except.ok () }

/-- Environment over the flat file service with all reverts succeeding. -/
def flatEnv : Env :=
  { fileService := flatFileService, revertOutcome := fun _ => Except.ok () }

/-- A dirty working copy at `vault:/a/file.txt`. -/
def childCopy : IWorkingCopy :=
  { id := 0, resource := { scheme := "vault", path := ["a", "file.txt"] }, dirty := true }

/-- Service state holding only `childCopy`. -/
def flatState : ServiceState :=
  { correlationIds := 0, workingCopies := [childCopy] }

/-- The parent resource `vault:/a`. -/
def parentURI : URI := { scheme := "vault", path := ["a"] }

/-- C1 counterexample: under a scheme the file service does not handle,
`delete` of `vault:/a` returns successfully while the dirty working copy at
the descendant `vault:/a/file.txt` is never soft-reverted: its dirty flag is
still set when `delete` returns. -/
theorem delete_misses_descendant_on_flat_scheme :
    (delete flatEnv flatState parentURI).outcome = Except.ok () ∧
    isEqualOrParent childCopy.resource parentURI = true ∧
    childCopy.dirty = true ∧
    (delete flatEnv flatState parentURI).state.workingCopies = [childCopy] :=
  ⟨rfl, by decide, rfl, rfl⟩

/-- C1 (amended): when `delete(P)` returns successfully, every working copy
that was dirty and whose path equals P — or, when P's scheme is handled by
the file service, equals P or is a descendant of P — has been soft-reverted
and its dirty flag is false after `delete` returns. -/
theorem delete_ok_clears_matching_dirty (env : Env) (st : ServiceState)
    (resource : URI) (c : IWorkingCopy) (hc : c ∈ st.workingCopies)
    (hdirty : c.dirty = true)
    (hmatch : (if env.fileService.canHandle resource.scheme then
        isEqualOrParent c.resource resource
      else isEqual c.resource resource) = true)
    (hok : (delete env st resource).outcome = Except.ok ()) :
    { c with dirty := false } ∈ (delete env st resource).state.workingCopies := by
  have hsel : c ∈ getDirtyWorkingCopies env.fileService st.workingCopies resource :=
    mem_getDirtyWorkingCopies.mpr ⟨hc, hdirty, hmatch⟩
  have hrev : firstRevertError env
      (getDirtyWorkingCopies env.fileService st.workingCopies resource) = none := by
    rcases h : firstRevertError env
        (getDirtyWorkingCopies env.fileService st.workingCopies resource) with _ | e
    · rfl
    · rw [delete_eq_of_revertError h] at hok
      simp at hok
  have hrevok := revertOk_of_firstRevertError_none hrev c hsel
  rw [delete_state]
  exact applyReverts_mem_reverted hc hsel hrevok

/-- A file service handling every scheme hierarchically, all delegate calls
succeeding. -/
def hierFileService : IFileService :=
  { canHandle := fun _ => true,
    moveResult := Except.ok 1,
    copyResult := Except.ok 2,
    delResult := Except.ok () }

/-- Environment over the hierarchical file service with all reverts
succeeding. -/
def hierEnv : Env :=
  { fileService := hierFileService, revertOutcome := fun _ => Except.ok () }

/-- Service state over the hierarchical file service holding `childCopy`. -/
def hierState : ServiceState :=
  { correlationIds := 0, workingCopies := [childCopy] }

/-- C1 witness: deleting `vault:/a` on the hierarchical file service reverts
the dirty copy at `vault:/a/file.txt`. -/
theorem delete_ok_clears_matching_dirty_witness :
    childCopy ∈ hierState.workingCopies ∧ childCopy.dirty = true ∧
    (delete hierEnv hierState parentURI).outcome = Except.ok () ∧
    { childCopy with dirty := false } ∈
      (delete hierEnv hierState parentURI).state.workingCopies :=
  ⟨by decide, rfl, rfl,
    delete_ok_clears_matching_dirty hierEnv hierState parentURI childCopy
      (by decide) rfl (by decide) rfl⟩

/-- If every revert succeeds in `env`, each single revert succeeds. -/
theorem revertOk_of_all_ok {env : Env}
    (henv : ∀ i, env.revertOutcome i = Except.ok ()) (i : Nat) :
    revertOk env i = true := by
  unfold revertOk
  rw [henv i]

/-- The resolved dirty copies of `moveOrCopy` are registry members. -/
theorem mem_of_mem_resolvedDirty {fs : IFileService} {copies : List IWorkingCopy}
    {source target : URI} {m : Bool} {c : IWorkingCopy}
    (h : c ∈ resolvedDirty fs copies source target m) : c ∈ copies := by
  unfold resolvedDirty at h
  cases m
  · simp only [Bool.false_eq_true, if_false] at h
    exact mem_of_mem_getDirty h
  · simp only [if_true] at h
    rcases List.mem_append.mp h with h | h <;> exact mem_of_mem_getDirty h

/-- The last event of a pipeline trace that reached the delegate is the
closing broadcast. -/
theorem getLast?_cons_append_pair (w f d : TraceEvent) (revs : List TraceEvent) :
    (w :: revs ++ [f, d]).getLast? = some d := by
  rw [show w :: revs ++ [f, d] = (w :: revs ++ [f]) ++ [d] by simp]
  exact List.getLast?_concat _

/-- Counting over a pipeline trace ignores the will-run event and the
revert block when the predicate rejects them. -/
theorem countP_cons_append_eq {w : TraceEvent} {revs rest : List TraceEvent}
    {p : TraceEvent → Bool} (hw : p w = false)
    (hrevs : ∀ e ∈ revs, p e = false) :
    (w :: revs ++ rest).countP p = rest.countP p := by
  rw [show w :: revs ++ rest = [w] ++ (revs ++ rest) by simp,
    List.countP_append, List.countP_append]
  have h1 : List.countP p [w] = 0 := by simp [List.countP_cons, hw]
  have h2 : List.countP p revs = 0 :=
    List.countP_eq_zero.mpr (fun e he => by simp [hrevs e he])
  rw [h1, h2]
  simp

/-- A truncated pipeline trace (no delegate call) has no event accepted by
a predicate rejecting the will-run event and the revert block. -/
theorem countP_cons_revs_eq_zero {w : TraceEvent} {revs : List TraceEvent}
    {p : TraceEvent → Bool} (hw : p w = false)
    (hrevs : ∀ e ∈ revs, p e = false) :
    (w :: revs).countP p = 0 := by
  rw [List.countP_cons, List.countP_eq_zero.mpr (fun e he => by simp [hrevs e he]), hw]
  simp

/-- C4: when the disk-mutation delegate throws, the did-fail broadcast with
the invocation's correlation id and operation descriptor is awaited as the
last event, the original delegate error is rethrown unchanged to the
caller, and the soft-reverted working copies stay reverted. -/
theorem delegate_failure_broadcasts_did_fail_and_rethrows (env : Env)
    (st : ServiceState) (source target resource : URI) (m : Bool) (e : Err)
    (henv : ∀ i, env.revertOutcome i = Except.ok ()) :
    ((if m then env.fileService.moveResult else env.fileService.copyResult) = Except.error e →
      (moveOrCopy env st source target m).outcome = Except.error e ∧
      (moveOrCopy env st source target m).trace.getLast? =
        some (TraceEvent.didFail st.correlationIds
          (if m then FileOperation.MOVE else FileOperation.COPY) (some source) target) ∧
      (moveOrCopy env st source target m).trace.head? =
        some (TraceEvent.willRun st.correlationIds
          (if m then FileOperation.MOVE else FileOperation.COPY) (some source) target) ∧
      ∀ c ∈ resolvedDirty env.fileService st.workingCopies source target m,
        { c with dirty := false } ∈ (moveOrCopy env st source target m).state.workingCopies) ∧
    (env.fileService.delResult = Except.error e →
      (delete env st resource).outcome = Except.error e ∧
      (delete env st resource).trace.getLast? =
        some (TraceEvent.didFail st.correlationIds FileOperation.DELETE none resource) ∧
      (delete env st resource).trace.head? =
        some (TraceEvent.willRun st.correlationIds FileOperation.DELETE none resource) ∧
      ∀ c ∈ getDirtyWorkingCopies env.fileService st.workingCopies resource,
        { c with dirty := false } ∈ (delete env st resource).state.workingCopies) := by
  constructor
  · intro hfail
    rw [moveOrCopy_eq_of_error (firstRevertError_none_of_all_ok henv) hfail]
    refine ⟨rfl, getLast?_cons_append_pair _ _ _ _, rfl, ?_⟩
    intro c hcL
    exact applyReverts_mem_reverted (mem_of_mem_resolvedDirty hcL) hcL
      (revertOk_of_all_ok henv c.id)
  · intro hfail
    rw [delete_eq_of_error (firstRevertError_none_of_all_ok henv) hfail]
    refine ⟨rfl, getLast?_cons_append_pair _ _ _ _, rfl, ?_⟩
    intro c hcL
    exact applyReverts_mem_reverted (mem_of_mem_getDirty hcL) hcL
      (revertOk_of_all_ok henv c.id)

/-- Source resource `file:/a` for concrete runs. -/
def srcURI : URI := { scheme := "file", path := ["a"] }

/-- Target resource `file:/z` for concrete runs. -/
def tgtURI : URI := { scheme := "file", path := ["z"] }

/-- Service state with an empty registry. -/
def stEmpty : ServiceState := { correlationIds := 0, workingCopies := [] }

/-- A file service handling every scheme whose delegate calls all throw. -/
def failFileService : IFileService :=
  { canHandle := fun _ => true,
    moveResult := Except.error "ENOENT",
    copyResult := Except.error "ENOENT",
    delResult := Except.error "ENOENT" }

/-- Environment over the failing file service, all reverts succeeding. -/
def failEnv : Env :=
  { fileService := failFileService, revertOutcome := fun _ => Except.ok () }

/-- C4 witness: deleting `vault:/a` with a failing delegate rethrows the
delegate error while the reverted copy stays reverted. -/
theorem delegate_failure_broadcasts_did_fail_and_rethrows_witness :
    failEnv.fileService.delResult = Except.error "ENOENT" ∧
    (delete failEnv hierState parentURI).outcome = Except.error "ENOENT" ∧
    { childCopy with dirty := false } ∈
      (delete failEnv hierState parentURI).state.workingCopies := by
  have h := (delegate_failure_broadcasts_did_fail_and_rethrows failEnv hierState
    srcURI tgtURI parentURI true "ENOENT" (fun _ => rfl)).2 rfl
  exact ⟨rfl, h.1, h.2.2.2 childCopy (by decide)⟩

/-- In a pipeline trace that reached the delegate, the delegate call
precedes both closing broadcasts. -/
theorem allBefore_fsCall_did (w f d : TraceEvent) (revs : List TraceEvent)
    (hw : (isDidRun w || isDidFail w) = false)
    (hrevs : ∀ e ∈ revs, (isDidRun e || isDidFail e) = false)
    (hf : (isDidRun f || isDidFail f) = false)
    (hd : isFsCall d = false) :
    allBefore (w :: revs ++ [f, d]) isFsCall (fun e => isDidRun e || isDidFail e) := by
  rw [show w :: revs ++ [f, d] = (w :: revs ++ [f]) ++ [d] by simp]
  apply allBefore_append
  · intro e he
    rw [List.mem_singleton.mp he]
    exact hd
  · intro e he
    rcases List.mem_cons.mp he with rfl | he
    · exact hw
    · rcases List.mem_append.mp he with h | h
      · exact hrevs e h
      · rw [List.mem_singleton.mp h]
        exact hf

/-- C5: whenever an invocation reaches the disk-mutation delegate call,
exactly one of did-run and did-fail fires — did-run iff the delegate
succeeds, did-fail iff it throws — and only after the delegate call. -/
theorem exactly_one_of_did_run_did_fail (env : Env) (st : ServiceState)
    (source target resource : URI) (m : Bool)
    (henv : ∀ i, env.revertOutcome i = Except.ok ()) :
    ((moveOrCopy env st source target m).trace.countP isDidRun =
        (match (if m then env.fileService.moveResult else env.fileService.copyResult) with
          | .ok _ => 1
          | .error _ => 0) ∧
      (moveOrCopy env st source target m).trace.countP isDidFail =
        (match (if m then env.fileService.moveResult else env.fileService.copyResult) with
          | .ok _ => 0
          | .error _ => 1) ∧
      (moveOrCopy env st source target m).trace.countP isFsCall = 1 ∧
      allBefore (moveOrCopy env st source target m).trace isFsCall
        (fun e => isDidRun e || isDidFail e)) ∧
    ((delete env st resource).trace.countP isDidRun =
        (match env.fileService.delResult with
          | .ok _ => 1
          | .error _ => 0) ∧
      (delete env st resource).trace.countP isDidFail =
        (match env.fileService.delResult with
          | .ok _ => 0
          | .error _ => 1) ∧
      (delete env st resource).trace.countP isFsCall = 1 ∧
      allBefore (delete env st resource).trace isFsCall
        (fun e => isDidRun e || isDidFail e)) := by
  have hrevs₁ : ∀ (L : List IWorkingCopy) (p : TraceEvent → Bool),
      (∀ i, p (TraceEvent.revertCall i) = false) →
      ∀ e ∈ (L.map fun c => TraceEvent.revertCall c.id), p e = false := by
    intro L p hp e he
    rcases List.mem_map.mp he with ⟨c, _, rfl⟩
    exact hp c.id
  constructor
  · rcases hres : (if m then env.fileService.moveResult else env.fileService.copyResult) with e | stat
    · rw [moveOrCopy_eq_of_error (firstRevertError_none_of_all_ok henv) hres]
      refine ⟨?_, ?_, ?_, ?_⟩
      · rw [countP_cons_append_eq rfl (hrevs₁ _ _ fun i => rfl)]
        rfl
      · rw [countP_cons_append_eq rfl (hrevs₁ _ _ fun i => rfl)]
        rfl
      · rw [countP_cons_append_eq rfl (hrevs₁ _ _ fun i => rfl)]
        rfl
      · exact allBefore_fsCall_did _ _ _ _ rfl
          (fun e he => by rcases List.mem_map.mp he with ⟨c, _, rfl⟩; rfl) rfl rfl
    · rw [moveOrCopy_eq_of_ok (firstRevertError_none_of_all_ok henv) hres]
      refine ⟨?_, ?_, ?_, ?_⟩
      · rw [countP_cons_append_eq rfl (hrevs₁ _ _ fun i => rfl)]
        rfl
      · rw [countP_cons_append_eq rfl (hrevs₁ _ _ fun i => rfl)]
        rfl
      · rw [countP_cons_append_eq rfl (hrevs₁ _ _ fun i => rfl)]
        rfl
      · exact allBefore_fsCall_did _ _ _ _ rfl
          (fun e he => by rcases List.mem_map.mp he with ⟨c, _, rfl⟩; rfl) rfl rfl
  · rcases hres : env.fileService.delResult with e | u
    · rw [delete_eq_of_error (firstRevertError_none_of_all_ok henv) hres]
      refine ⟨?_, ?_, ?_, ?_⟩
      · rw [countP_cons_append_eq rfl (hrevs₁ _ _ fun i => rfl)]
        rfl
      · rw [countP_cons_append_eq rfl (hrevs₁ _ _ fun i => rfl)]
        rfl
      · rw [countP_cons_append_eq rfl (hrevs₁ _ _ fun i => rfl)]
        rfl
      · exact allBefore_fsCall_did _ _ _ _ rfl
          (fun e he => by rcases List.mem_map.mp he with ⟨c, _, rfl⟩; rfl) rfl rfl
    · cases u
      rw [delete_eq_of_ok (firstRevertError_none_of_all_ok henv) hres]
      refine ⟨?_, ?_, ?_, ?_⟩
      · rw [countP_cons_append_eq rfl (hrevs₁ _ _ fun i => rfl)]
        rfl
      · rw [countP_cons_append_eq rfl (hrevs₁ _ _ fun i => rfl)]
        rfl
      · rw [countP_cons_append_eq rfl (hrevs₁ _ _ fun i => rfl)]
        rfl
      · exact allBefore_fsCall_did _ _ _ _ rfl
          (fun e he => by rcases List.mem_map.mp he with ⟨c, _, rfl⟩; rfl) rfl rfl

/-- C5 witness: a successful move fires did-run once and did-fail never. -/
theorem exactly_one_of_did_run_did_fail_witness :
    (moveOrCopy hierEnv hierState srcURI tgtURI true).trace.countP isDidRun = 1 ∧
    (moveOrCopy hierEnv hierState srcURI tgtURI true).trace.countP isDidFail = 0 := by
  have h := (exactly_one_of_did_run_did_fail hierEnv hierState srcURI tgtURI
    parentURI true (fun _ => rfl)).1
  exact ⟨h.1, h.2.1⟩

/-- C8 counterexample: a successful move returns the delegate's metadata to
the caller, but the did-run broadcast it fires carries no metadata: the
fired event has an empty metadata field, and no did-run event carrying the
returned metadata is fired. -/
theorem did_run_carries_no_metadata :
    (moveOrCopy hierEnv stEmpty srcURI tgtURI true).outcome = Except.ok 1 ∧
    TraceEvent.didRun 0 FileOperation.MOVE (some srcURI) tgtURI none ∈
      (moveOrCopy hierEnv stEmpty srcURI tgtURI true).trace ∧
    TraceEvent.didRun 0 FileOperation.MOVE (some srcURI) tgtURI (some 1) ∉
      (moveOrCopy hierEnv stEmpty srcURI tgtURI true).trace :=
  ⟨rfl, by decide, by decide⟩

/-- C8 (amended): on delegate success the did-run broadcast carries the same
correlation id and operation descriptor as the will-run broadcast but no
file metadata, and the invocation returns the delegate's metadata to the
caller. -/
theorem did_run_descriptor_and_return (env : Env) (st : ServiceState)
    (source target : URI) (m : Bool) (stat : IFileStatWithMetadata)
    (henv : ∀ i, env.revertOutcome i = Except.ok ())
    (hok : (if m then env.fileService.moveResult else env.fileService.copyResult) = Except.ok stat) :
    (moveOrCopy env st source target m).outcome = Except.ok stat ∧
    (moveOrCopy env st source target m).trace.getLast? =
      some (TraceEvent.didRun st.correlationIds
        (if m then FileOperation.MOVE else FileOperation.COPY) (some source) target none) ∧
    (moveOrCopy env st source target m).trace.head? =
      some (TraceEvent.willRun st.correlationIds
        (if m then FileOperation.MOVE else FileOperation.COPY) (some source) target) := by
  rw [moveOrCopy_eq_of_ok (firstRevertError_none_of_all_ok henv) hok]
  exact ⟨rfl, getLast?_cons_append_pair _ _ _ _, rfl⟩

/-- C8 witness: the successful move over the hierarchical file service
returns its delegate metadata. -/
theorem did_run_descriptor_and_return_witness :
    hierEnv.fileService.moveResult = Except.ok 1 ∧
    (moveOrCopy hierEnv stEmpty srcURI tgtURI true).outcome = Except.ok 1 :=
  ⟨rfl, (did_run_descriptor_and_return hierEnv stEmpty srcURI tgtURI true 1
    (fun _ => rfl) rfl).1⟩

/-- A some result of `firstRevertError` comes from a failing revert among
the selected copies. -/
theorem exists_failing_of_firstRevertError_some {env : Env}
    {L : List IWorkingCopy} {e : Err}
    (h : firstRevertError env L = some e) :
    ∃ c ∈ L, env.revertOutcome c.id = Except.error e := by
  unfold firstRevertError at h
  rcases List.exists_of_findSome?_eq_some h with ⟨c, hc, hcv⟩
  refine ⟨c, hc, ?_⟩
  rcases h2 : env.revertOutcome c.id with e' | u
  · rw [h2] at hcv
    simp at hcv
    rw [hcv]
  · rw [h2] at hcv
    simp at hcv

/-- C9: when a soft revert of a resolved dirty working copy rejects, the
revert error propagates to the caller, the disk-mutation delegate call is
never attempted, and neither did-fail nor did-run fires. -/
theorem revert_failure_aborts_pipeline (env : Env) (st : ServiceState)
    (source target resource : URI) (m : Bool) (e : Err) :
    (firstRevertError env (resolvedDirty env.fileService st.workingCopies source target m) = some e →
      (moveOrCopy env st source target m).outcome = Except.error e ∧
      (∃ c ∈ resolvedDirty env.fileService st.workingCopies source target m,
        env.revertOutcome c.id = Except.error e) ∧
      (moveOrCopy env st source target m).trace.countP isFsCall = 0 ∧
      (moveOrCopy env st source target m).trace.countP isDidFail = 0 ∧
      (moveOrCopy env st source target m).trace.countP isDidRun = 0) ∧
    (firstRevertError env (getDirtyWorkingCopies env.fileService st.workingCopies resource) = some e →
      (delete env st resource).outcome = Except.error e ∧
      (∃ c ∈ getDirtyWorkingCopies env.fileService st.workingCopies resource,
        env.revertOutcome c.id = Except.error e) ∧
      (delete env st resource).trace.countP isFsCall = 0 ∧
      (delete env st resource).trace.countP isDidFail = 0 ∧
      (delete env st resource).trace.countP isDidRun = 0) := by
  have hrevs₂ : ∀ (L : List IWorkingCopy) (p : TraceEvent → Bool),
      (∀ i, p (TraceEvent.revertCall i) = false) →
      ∀ ev ∈ (L.map fun c => TraceEvent.revertCall c.id), p ev = false := by
    intro L p hp ev hev
    rcases List.mem_map.mp hev with ⟨c, _, rfl⟩
    exact hp c.id
  constructor
  · intro hfail
    rw [moveOrCopy_eq_of_revertError hfail]
    exact ⟨rfl, exists_failing_of_firstRevertError_some hfail,
      countP_cons_revs_eq_zero rfl (hrevs₂ _ _ fun i => rfl),
      countP_cons_revs_eq_zero rfl (hrevs₂ _ _ fun i => rfl),
      countP_cons_revs_eq_zero rfl (hrevs₂ _ _ fun i => rfl)⟩
  · intro hfail
    rw [delete_eq_of_revertError hfail]
    exact ⟨rfl, exists_failing_of_firstRevertError_some hfail,
      countP_cons_revs_eq_zero rfl (hrevs₂ _ _ fun i => rfl),
      countP_cons_revs_eq_zero rfl (hrevs₂ _ _ fun i => rfl),
      countP_cons_revs_eq_zero rfl (hrevs₂ _ _ fun i => rfl)⟩

/-- Environment whose soft reverts all reject. -/
def revertFailEnv : Env :=
  { fileService := hierFileService, revertOutcome := fun _ => Except.error "EREVERT" }

/-- C9 witness: deleting `vault:/a` with a rejecting revert propagates the
revert error and never reaches the delegate. -/
theorem revert_failure_aborts_pipeline_witness :
    firstRevertError revertFailEnv
      (getDirtyWorkingCopies revertFailEnv.fileService hierState.workingCopies parentURI) =
        some "EREVERT" ∧
    (delete revertFailEnv hierState parentURI).outcome = Except.error "EREVERT" ∧
    (delete revertFailEnv hierState parentURI).trace.countP isFsCall = 0 := by
  have h := (revert_failure_aborts_pipeline revertFailEnv hierState srcURI tgtURI
    parentURI true "EREVERT").2 rfl
  exact ⟨rfl, h.1, h.2.2.1⟩

/-- A dirty working copy at `file:/a/x.txt`, under the move source `file:/a`
only. -/
def srcOnlyCopy : IWorkingCopy :=
  { id := 3, resource := { scheme := "file", path := ["a", "x.txt"] }, dirty := true }

/-- Service state holding only `srcOnlyCopy`. -/
def stSrcOnly : ServiceState :=
  { correlationIds := 0, workingCopies := [srcOnlyCopy] }

/-- C2 witness: a copy from `file:/a` to `file:/z` leaves the dirty copy
under the source untouched. -/
theorem move_reverts_both_copy_reverts_target_only_witness :
    srcOnlyCopy.id ∉ revertCalls (moveOrCopy hierEnv stSrcOnly srcURI tgtURI false).trace ∧
    srcOnlyCopy ∈ (moveOrCopy hierEnv stSrcOnly srcURI tgtURI false).state.workingCopies :=
  (move_reverts_both_copy_reverts_target_only hierEnv stSrcOnly srcURI tgtURI).2.2
    srcOnlyCopy (by decide) (by decide) (by decide) (by decide)

/-- A dirty working copy at `file:/a/b`, matching both the source `file:/a`
and the target `file:/a/b` of a move. -/
def overlapCopy : IWorkingCopy :=
  { id := 5, resource := { scheme := "file", path := ["a", "b"] }, dirty := true }

/-- Service state holding only `overlapCopy`. -/
def stOverlap : ServiceState :=
  { correlationIds := 0, workingCopies := [overlapCopy] }

/-- The overlap move target `file:/a/b`. -/
def ovTgt : URI := { scheme := "file", path := ["a", "b"] }

/-- C10 witness: moving `file:/a` onto `file:/a/b` soft-reverts the dirty
copy at `file:/a/b` twice. -/
theorem move_reverts_twice_on_overlap_witness :
    overlapCopy ∈ getDirtyWorkingCopies hierEnv.fileService stOverlap.workingCopies srcURI ∧
    overlapCopy ∈ getDirtyWorkingCopies hierEnv.fileService stOverlap.workingCopies ovTgt ∧
    (revertCalls (moveOrCopy hierEnv stOverlap srcURI ovTgt true).trace).count
      overlapCopy.id = 2 :=
  ⟨by decide, by decide,
    move_reverts_twice_on_overlap hierEnv stOverlap srcURI ovTgt overlapCopy
      (by decide) (by decide) (by decide)⟩

/-- A request to the coordinator, for sequencing several invocations on one
instance. -/
inductive OpRequest where
  | moveReq (source target : URI)
  | copyReq (source target : URI)
  | deleteReq (resource : URI)

/-- The service state after serving one request. -/
def stepState (env : Env) (st : ServiceState) : OpRequest → ServiceState
  | .moveReq s t => (moveOrCopy env st s t true).state
  | .copyReq s t => (moveOrCopy env st s t false).state
  | .deleteReq r => (delete env st r).state

/-- The correlation ids allocated by a sequence of requests served in
order on one coordinator instance. -/
def seqCids (env : Env) (st : ServiceState) : List OpRequest → List Nat
  | [] => []
  | r :: rs => st.correlationIds :: seqCids env (stepState env st r) rs

/-- The correlation id carried by a broadcast event, if any. -/
def eventCid : TraceEvent → Option Nat
  | .willRun cid _ _ _ => some cid
  | .didFail cid _ _ _ => some cid
  | .didRun cid _ _ _ _ => some cid
  | _ => none

/-- Serving any request advances the correlation id counter by one. -/
theorem stepState_correlationIds (env : Env) (st : ServiceState) (r : OpRequest) :
    (stepState env st r).correlationIds = st.correlationIds + 1 := by
  cases r <;> simp [stepState, moveOrCopy_state, delete_state]

/-- Every correlation id allocated from a state is at least its counter. -/
theorem le_of_mem_seqCids (env : Env) :
    ∀ (reqs : List OpRequest) (st : ServiceState), ∀ x ∈ seqCids env st reqs,
      st.correlationIds ≤ x := by
  intro reqs
  induction reqs with
  | nil =>
    intro st x hx
    simp [seqCids] at hx
  | cons r rs ih =>
    intro st x hx
    rw [seqCids] at hx
    rcases List.mem_cons.mp hx with rfl | hx
    · exact Nat.le_refl _
    · have := ih (stepState env st r) x hx
      rw [stepState_correlationIds] at this
      omega

/-- The allocated correlation ids increase strictly along any request
sequence. -/
theorem chain_seqCids (env : Env) :
    ∀ (reqs : List OpRequest) (st : ServiceState),
      List.Chain' (· < ·) (seqCids env st reqs) := by
  intro reqs
  induction reqs with
  | nil =>
    intro st
    exact List.chain'_nil
  | cons r rs ih =>
    intro st
    rw [seqCids, List.chain'_cons']
    refine ⟨?_, ih _⟩
    intro b hb
    have hble := le_of_mem_seqCids env rs (stepState env st r) b (List.mem_of_mem_head? hb)
    rw [stepState_correlationIds] at hble
    omega

/-- Revert calls carry no correlation id. -/
theorem eventCid_revertEvts {l : List IWorkingCopy} :
    ∀ e ∈ (l.map fun c => TraceEvent.revertCall c.id), eventCid e = none := by
  intro e he
  rcases List.mem_map.mp he with ⟨c, _, rfl⟩
  rfl

/-- Every broadcast of one `moveOrCopy` invocation carries the correlation
id allocated by that invocation. -/
theorem moveOrCopy_cids (env : Env) (st : ServiceState) (source target : URI)
    (m : Bool) :
    ∀ e ∈ (moveOrCopy env st source target m).trace,
      ∀ c, eventCid e = some c → c = st.correlationIds := by
  rcases h : firstRevertError env (resolvedDirty env.fileService st.workingCopies source target m) with _ | e₀
  · rcases h₂ : (if m then env.fileService.moveResult else env.fileService.copyResult) with e₀ | stat
    · rw [moveOrCopy_eq_of_error h h₂]
      intro e he c hc
      rcases List.mem_cons.mp he with rfl | he
      · simp [eventCid] at hc
        exact hc.symm
      · rcases List.mem_append.mp he with he | he
        · rw [eventCid_revertEvts e he] at hc
          exact Option.noConfusion hc
        · rcases List.mem_cons.mp he with rfl | he
          · simp [eventCid] at hc
          · rw [List.mem_singleton.mp he] at hc
            simp [eventCid] at hc
            exact hc.symm
    · rw [moveOrCopy_eq_of_ok h h₂]
      intro e he c hc
      rcases List.mem_cons.mp he with rfl | he
      · simp [eventCid] at hc
        exact hc.symm
      · rcases List.mem_append.mp he with he | he
        · rw [eventCid_revertEvts e he] at hc
          exact Option.noConfusion hc
        · rcases List.mem_cons.mp he with rfl | he
          · simp [eventCid] at hc
          · rw [List.mem_singleton.mp he] at hc
            simp [eventCid] at hc
            exact hc.symm
  · rw [moveOrCopy_eq_of_revertError h]
    intro e he c hc
    rcases List.mem_cons.mp he with rfl | he
    · simp [eventCid] at hc
      exact hc.symm
    · rw [eventCid_revertEvts e he] at hc
      exact Option.noConfusion hc

/-- Every broadcast of one `delete` invocation carries the correlation id
allocated by that invocation. -/
theorem delete_cids (env : Env) (st : ServiceState) (resource : URI) :
    ∀ e ∈ (delete env st resource).trace,
      ∀ c, eventCid e = some c → c = st.correlationIds := by
  rcases h : firstRevertError env (getDirtyWorkingCopies env.fileService st.workingCopies resource) with _ | e₀
  · rcases h₂ : env.fileService.delResult with e₀ | u
    · rw [delete_eq_of_error h h₂]
      intro e he c hc
      rcases List.mem_cons.mp he with rfl | he
      · simp [eventCid] at hc
        exact hc.symm
      · rcases List.mem_append.mp he with he | he
        · rw [eventCid_revertEvts e he] at hc
          exact Option.noConfusion hc
        · rcases List.mem_cons.mp he with rfl | he
          · simp [eventCid] at hc
          · rw [List.mem_singleton.mp he] at hc
            simp [eventCid] at hc
            exact hc.symm
    · cases u
      rw [delete_eq_of_ok h h₂]
      intro e he c hc
      rcases List.mem_cons.mp he with rfl | he
      · simp [eventCid] at hc
        exact hc.symm
      · rcases List.mem_append.mp he with he | he
        · rw [eventCid_revertEvts e he] at hc
          exact Option.noConfusion hc
        · rcases List.mem_cons.mp he with rfl | he
          · simp [eventCid] at hc
          · rw [List.mem_singleton.mp he] at hc
            simp [eventCid] at hc
            exact hc.symm
  · rw [delete_eq_of_revertError h]
    intro e he c hc
    rcases List.mem_cons.mp he with rfl | he
    · simp [eventCid] at hc
      exact hc.symm
    · rw [eventCid_revertEvts e he] at hc
      exact Option.noConfusion hc

/-- C7: the correlation ids allocated by sequential move, copy and delete
invocations on one coordinator instance are strictly increasing and unique,
and within one invocation every will-run, did-run and did-fail broadcast
carries that invocation's correlation id. -/
theorem correlation_ids_unique_increasing (env : Env) (st : ServiceState)
    (reqs : List OpRequest) (source target resource : URI) (m : Bool) :
    List.Chain' (· < ·) (seqCids env st reqs) ∧
    (seqCids env st reqs).Nodup ∧
    (∀ e ∈ (moveOrCopy env st source target m).trace,
      ∀ c, eventCid e = some c → c = st.correlationIds) ∧
    (∀ e ∈ (delete env st resource).trace,
      ∀ c, eventCid e = some c → c = st.correlationIds) := by
  refine ⟨chain_seqCids env reqs st, ?_,
    moveOrCopy_cids env st source target m, delete_cids env st resource⟩
  have hp := List.chain'_iff_pairwise.mp (chain_seqCids env reqs st)
  exact hp.imp fun h => Nat.ne_of_lt h

/-- Three requests served in sequence on one instance. -/
def reqList : List OpRequest :=
  [OpRequest.deleteReq parentURI, OpRequest.moveReq srcURI tgtURI,
    OpRequest.copyReq srcURI tgtURI]

/-- C7 witness: the concrete sequence allocates the ids 0, 1, 2, and the
will-run broadcast of the first delete carries id 0. -/
theorem correlation_ids_unique_increasing_witness :
    List.Chain' (· < ·) (seqCids hierEnv hierState reqList) ∧
    seqCids hierEnv hierState reqList = [0, 1, 2] ∧
    (0 : Nat) = hierState.correlationIds :=
  ⟨(correlation_ids_unique_increasing hierEnv hierState reqList srcURI tgtURI
      parentURI true).1,
    by decide,
    (correlation_ids_unique_increasing hierEnv hierState reqList srcURI tgtURI
      parentURI true).2.2.2
      (TraceEvent.willRun 0 FileOperation.DELETE none parentURI) (by decide) 0 rfl⟩

/-- C3 witness: in the concrete delete of `vault:/a` every revert precedes
the delegate call. -/
theorem will_run_then_reverts_then_fs_call_witness :
    allBefore (delete hierEnv hierState parentURI).trace isRevertCall isFsCall :=
  (will_run_then_reverts_then_fs_call hierEnv hierState srcURI tgtURI parentURI true).2.2.1

/-- C6 witness: the resolver selects the dirty copy at `vault:/a/file.txt`
for the hierarchical target `vault:/a`, and it is a dirty registry member. -/
theorem resolver_hierarchical_vs_flat_witness :
    childCopy ∈ [childCopy] ∧ childCopy.dirty = true :=
  ⟨((resolver_hierarchical_vs_flat hierFileService [childCopy] parentURI childCopy).mp
      (by decide)).1,
    ((resolver_hierarchical_vs_flat hierFileService [childCopy] parentURI childCopy).mp
      (by decide)).2.1⟩

end WorkingCopyFileService
